import Mathlib

/-!
Verification of the label-based key-value state codec and CRUD engine of the
`state-labels` GitHub action.

Strings are modelled as `List Char` (`Str`).  The pure codec functions
(`parseStateLabel`, `createStateLabelName`, `convertValue`) are translated
directly from `src/labels.ts`; the stateful operations (`setOperation`,
`removeOperation`, `isLabelUsedByOthers` from `src/operations.ts`) are
modelled as pure functions from an explicit environment of external-call
responses to a trace of issued API calls, emitted warnings, and a result.
-/

namespace StateLabels

/-- Strings are modelled as lists of characters. -/
abbrev Str := List Char

/-- JavaScript `String.prototype.indexOf` for a substring pattern: the first
index `i` of `s` at which `pat` occurs as a prefix of `s.drop i`, `none` when
there is no occurrence (JS returns `-1`).  An empty pattern occurs at 0. -/
def indexOfSubstr (pat : Str) : Str → Option Nat
  | [] => if pat.isPrefixOf ([] : Str) then some 0 else none
  | c :: t =>
    if pat.isPrefixOf (c :: t) then some 0
    else (indexOfSubstr pat t).map (· + 1)

/-- The expected label-name prefix: `prefix + separator` when the prefix is
non-empty (JS truthiness of the string), else the empty string
(`src/labels.ts`, the `expectedPrefix` local of `parseStateLabel`). -/
def expectedPfx (pfx sep : Str) : Str :=
  if pfx = [] then [] else pfx ++ sep

/-- `parseStateLabel` from `src/labels.ts`: strip the expected prefix, split
the remainder at the first occurrence of the separator. -/
def parseStateLabel (labelName pfx sep : Str) : Option (Str × Str) :=
  if (expectedPfx pfx sep).isPrefixOf labelName then
    let remainder := labelName.drop (expectedPfx pfx sep).length
    match indexOfSubstr sep remainder with
    | none => none
    | some separatorIndex =>
      some (remainder.take separatorIndex,
            remainder.drop (separatorIndex + sep.length))
  else none

/-- `createStateLabelName` from `src/labels.ts`:
`prefixPart ++ key ++ separator ++ value`. -/
def createStateLabelName (key value pfx sep : Str) : Str :=
  let pfxPart := if pfx = [] then [] else pfx ++ sep
  pfxPart ++ key ++ sep ++ value

/-- Whitespace skipped by JavaScript `parseInt` (ASCII portion). -/
def isJsWhitespace (c : Char) : Bool :=
  c = ' ' || c = '\t' || c = '\n' || c = '\r' || c = '\x0b' || c = '\x0c'

/-- ASCII decimal digit test. -/
def isDigitCh (c : Char) : Bool :=
  '0' ≤ c && c ≤ '9'

/-- Numeric value of a list of decimal digit characters (most significant
first). -/
def digitsToNat (ds : List Char) : Nat :=
  ds.foldl (fun acc c => 10 * acc + (c.toNat - '0'.toNat)) 0

/-- Model of JavaScript `parseInt(s, 10)`: skip leading whitespace, read an
optional sign and then the longest run of leading decimal digits, ignoring
any trailing characters; `none` models `NaN` (no digits).  The result is an
exact integer (floating-point rounding of very large inputs is not modelled;
it only affects inputs on which `convertValue` returns the input verbatim
either way). -/
def jsParseInt (s : Str) : Option Int :=
  let s1 := s.dropWhile isJsWhitespace
  let signed : Int × Str :=
    match s1 with
    | '-' :: t => (-1, t)
    | '+' :: t => (1, t)
    | _ => (1, s1)
  let ds := signed.2.takeWhile isDigitCh
  if ds = [] then none else some (signed.1 * (digitsToNat ds : Int))

/-- Decimal rendering of an integer, as JavaScript `Number.prototype.toString`
renders integral values. -/
def intToString (n : Int) : Str :=
  if n < 0 then '-' :: Nat.toDigits 10 n.natAbs else Nat.toDigits 10 n.toNat

/-- `convertValue` from `src/labels.ts`: parse the value as a base-10 integer;
if re-rendering the parse result reproduces the input exactly, return the
rendering, otherwise return the input unchanged. -/
def convertValue (value : Str) : Str :=
  match jsParseInt value with
  | none => value
  | some num => if intToString num = value then intToString num else value

/-- Does a label name decode, under `parseStateLabel`, to the given key?
(the `parsed && parsed.key === key` callback of `src/operations.ts`). -/
def decodesToKey (pfx sep key nm : Str) : Bool :=
  match parseStateLabel nm pfx sep with
  | some parsed => parsed.1 == key
  | none => false

/-- A GitHub label (`src/labels.ts`); only `name` is semantically relevant. -/
structure Label where
  name : Str
  color : Option Str := none
  description : Option (Option Str) := none
  deriving Repr, DecidableEq

/-- The operation context (`src/operations.ts`), minus the transport handle
(`octokit`), whose responses are modelled by `ExternalEnv`. -/
structure OperationContext where
  owner : Str
  repo : Str
  issueNumber : Nat
  pfx : Str
  separator : Str
  deleteUnusedLabels : Bool
  deriving Repr, DecidableEq

/-- The operation output record (`src/operations.ts`): `value` is absent,
`null`, or a string; `state` is absent or a string. -/
structure OperationOutput where
  success : Bool
  value : Option (Option Str) := none
  state : Option Str := none
  deriving Repr, DecidableEq

/-- One external API call issued by an operation. -/
inductive ApiCall where
  | setLabels (labels : List Str)
  | listForRepo (label : Str) (page : Nat)
  | deleteLabel (name : Str)
  deriving Repr, DecidableEq

/-- Result of one `listForRepo` page fetch: the issue numbers on the page, or
a transport error. -/
inductive PageResult where
  | ok (issues : List Nat)
  | err (msg : Str)
  deriving Repr, DecidableEq

/-- A `core.warning` emitted by an operation (messages abstracted to the
label name and the underlying error message). -/
inductive OpWarning where
  | usageCheckFailed (label : Str) (msg : Str)
  | deleteFailed (label : Str) (msg : Str)
  deriving Repr, DecidableEq

/-- Result of `isLabelUsedByOthers`: its Boolean answer, the page-listing
calls it made, and the warnings it emitted. -/
structure UsageTrace where
  used : Bool
  calls : List ApiCall
  warnings : List OpWarning
  deriving Repr, DecidableEq

/-- Fixed page size of the usage check (`const perPage = 100`). -/
def perPage : Nat := 100

/-- The `while (true)` pagination loop of `isLabelUsedByOthers`
(`src/operations.ts`), recursing over the finite script of page responses;
pages beyond the script are empty (the live API returns an empty page past
the last result).  Each iteration lists one page, filters out the context's
own issue number, returns `true` on any remaining issue, and stops with
`false` on a page shorter than `perPage`.  A transport error is caught: a
warning is emitted and the result is `true`. -/
def isLabelUsedGo (issueNumber : Nat) (labelName : Str) (page : Nat) :
    List PageResult → UsageTrace
  | [] => ⟨false, [ApiCall.listForRepo labelName page], []⟩
  | PageResult.err msg :: _ =>
    ⟨true, [ApiCall.listForRepo labelName page],
      [OpWarning.usageCheckFailed labelName msg]⟩
  | PageResult.ok issues :: rest =>
    let otherIssues := issues.filter (fun m => m != issueNumber)
    if 0 < otherIssues.length then
      ⟨true, [ApiCall.listForRepo labelName page], []⟩
    else if issues.length < perPage then
      ⟨false, [ApiCall.listForRepo labelName page], []⟩
    else
      let t := isLabelUsedGo issueNumber labelName (page + 1) rest
      ⟨t.used, ApiCall.listForRepo labelName page :: t.calls, t.warnings⟩

/-- `isLabelUsedByOthers` (`src/operations.ts`): pagination starts at page 1. -/
def isLabelUsedByOthers (ctx : OperationContext) (labelName : Str)
    (pages : List PageResult) : UsageTrace :=
  isLabelUsedGo ctx.issueNumber labelName 1 pages

/-- Responses of the external service for one operation: the outcome of the
`setLabels` replacement call, the page script for the usage check, and the
outcome of the catalog `deleteLabel` call. -/
structure ExternalEnv where
  setLabelsResult : Except Str Unit
  pages : List PageResult
  deleteResult : Except Str Unit

/-- Trace of one operation: its result (`Except.error` models a thrown
transport error), the API calls issued, and the warnings emitted. -/
structure OpTrace where
  result : Except Str OperationOutput
  calls : List ApiCall
  warnings : List OpWarning

/-- The replacement label-name list built by `setOperation`
(`src/operations.ts`): the names of all current labels whose parse does not
yield `key`, with the freshly formatted label name appended. -/
def buildSetLabels (pfx sep key value : Str) (currentLabels : List Label) : List Str :=
  let newLabelName := createStateLabelName key (convertValue value) pfx sep
  let labelsToKeep := currentLabels.filter (fun l => !decodesToKey pfx sep key l.name)
  labelsToKeep.map (fun l => l.name) ++ [newLabelName]

/-- `setOperation` (`src/operations.ts`): build the replacement list, issue
the single `setLabels` call (a transport error there propagates), then — when
an existing label for the key was found and `deleteUnusedLabels` is enabled —
run the usage check and, if the old name is unused elsewhere, the best-effort
catalog deletion, whose failure is caught and downgraded to a warning. -/
def setOperation (ctx : OperationContext) (key value : Str)
    (currentLabels : List Label) (env : ExternalEnv) : OpTrace :=
  let existingLabel := currentLabels.find? (fun l => decodesToKey ctx.pfx ctx.separator key l.name)
  let newLabels := buildSetLabels ctx.pfx ctx.separator key value currentLabels
  match env.setLabelsResult with
  | Except.error e => ⟨Except.error e, [ApiCall.setLabels newLabels], []⟩
  | Except.ok _ =>
    match existingLabel with
    | some ex =>
      if ctx.deleteUnusedLabels then
        let usage := isLabelUsedByOthers ctx ex.name env.pages
        if usage.used then
          ⟨Except.ok ⟨true, none, none⟩,
            ApiCall.setLabels newLabels :: usage.calls, usage.warnings⟩
        else
          match env.deleteResult with
          | Except.ok _ =>
            ⟨Except.ok ⟨true, none, none⟩,
              ApiCall.setLabels newLabels :: (usage.calls ++ [ApiCall.deleteLabel ex.name]),
              usage.warnings⟩
          | Except.error e =>
            ⟨Except.ok ⟨true, none, none⟩,
              ApiCall.setLabels newLabels :: (usage.calls ++ [ApiCall.deleteLabel ex.name]),
              usage.warnings ++ [OpWarning.deleteFailed ex.name e]⟩
      else
        ⟨Except.ok ⟨true, none, none⟩, [ApiCall.setLabels newLabels], []⟩
    | none =>
      ⟨Except.ok ⟨true, none, none⟩, [ApiCall.setLabels newLabels], []⟩

/-- `removeOperation` (`src/operations.ts`): when no current label decodes to
the key, return `success: false` without any external call; otherwise issue
the single `setLabels` replacement (a transport error there propagates) and,
when `deleteUnusedLabels` is enabled, run the usage check and best-effort
catalog deletion of the removed label's name. -/
def removeOperation (ctx : OperationContext) (key : Str)
    (currentLabels : List Label) (env : ExternalEnv) : OpTrace :=
  match currentLabels.find? (fun l => decodesToKey ctx.pfx ctx.separator key l.name) with
  | none => ⟨Except.ok ⟨false, none, none⟩, [], []⟩
  | some labelToRemove =>
    let labelsToKeep := currentLabels.filter (fun l => !decodesToKey ctx.pfx ctx.separator key l.name)
    let keepNames := labelsToKeep.map (fun l => l.name)
    match env.setLabelsResult with
    | Except.error e => ⟨Except.error e, [ApiCall.setLabels keepNames], []⟩
    | Except.ok _ =>
      if ctx.deleteUnusedLabels then
        let usage := isLabelUsedByOthers ctx labelToRemove.name env.pages
        if usage.used then
          ⟨Except.ok ⟨true, none, none⟩,
            ApiCall.setLabels keepNames :: usage.calls, usage.warnings⟩
        else
          match env.deleteResult with
          | Except.ok _ =>
            ⟨Except.ok ⟨true, none, none⟩,
              ApiCall.setLabels keepNames :: (usage.calls ++ [ApiCall.deleteLabel labelToRemove.name]),
              usage.warnings⟩
          | Except.error e =>
            ⟨Except.ok ⟨true, none, none⟩,
              ApiCall.setLabels keepNames :: (usage.calls ++ [ApiCall.deleteLabel labelToRemove.name]),
              usage.warnings ++ [OpWarning.deleteFailed labelToRemove.name e]⟩
      else
        ⟨Except.ok ⟨true, none, none⟩, [ApiCall.setLabels keepNames], []⟩

/-- Name-level form of the replacement list built by one `set` call. -/
def setReplacementNames (pfx sep key value : Str) (names : List Str) : List Str :=
  names.filter (fun nm => !decodesToKey pfx sep key nm) ++
    [createStateLabelName key (convertValue value) pfx sep]

/-- The label-name list after a sequence of `set` calls for one key, each
call replacing the whole list with the replacement list it builds. -/
def applySets (pfx sep key : Str) (names : List Str) (values : List Str) : List Str :=
  values.foldl (fun acc v => setReplacementNames pfx sep key v acc) names

/-- Number of labels in a name list decoding to the given key. -/
def countForKey (pfx sep key : Str) (names : List Str) : Nat :=
  (names.filter (fun nm => decodesToKey pfx sep key nm)).length

/-- The page-listing calls `listForRepo label page` for `count` consecutive
pages starting at `startPage`. -/
def pagesCalls (label : Str) (startPage : Nat) : Nat → List ApiCall
  | 0 => []
  | n + 1 => ApiCall.listForRepo label startPage :: pagesCalls label (startPage + 1) n

/-- A full page (at least `perPage` results) carrying only the context's own
issue number. -/
def fullOwnPage (issueNumber : Nat) (p : PageResult) : Prop :=
  ∃ issues, p = PageResult.ok issues ∧
    issues.filter (fun m => m != issueNumber) = [] ∧ perPage ≤ issues.length

/-- Is a call the label-list replacement call? -/
def ApiCall.isSetLabels : ApiCall → Bool
  | ApiCall.setLabels _ => true
  | _ => false

/-- Positions strictly before the index returned by `indexOfSubstr` carry no
occurrence of the pattern. -/
theorem not_isPrefixOf_of_lt_indexOfSubstr (pat : Str) :
    ∀ (s : Str) (i : Nat), indexOfSubstr pat s = some i →
      ∀ j, j < i → pat.isPrefixOf (s.drop j) = false := by
  intro s
  induction s with
  | nil =>
    intro i h j hj
    unfold indexOfSubstr at h
    split at h
    · simp only [Option.some.injEq] at h
      omega
    · exact absurd h (by simp)
  | cons c t ih =>
    intro i h j hj
    unfold indexOfSubstr at h
    split at h
    next hpre =>
      simp only [Option.some.injEq] at h
      omega
    next hpre =>
      cases ht : indexOfSubstr pat t with
      | none => rw [ht] at h; simp at h
      | some i' =>
        rw [ht] at h
        simp only [Option.map_some', Option.some.injEq] at h
        cases j with
        | zero =>
          rw [List.drop_zero]
          exact Bool.eq_false_iff.mpr hpre
        | succ j' =>
          rw [List.drop_succ_cons]
          exact ih i' ht j' (by omega)

/-- An occurrence of the pattern at `i` preceded by no occurrence is the
result of `indexOfSubstr`. -/
theorem indexOfSubstr_eq_some (pat : Str) :
    ∀ (s : Str) (i : Nat), pat.isPrefixOf (s.drop i) = true →
      (∀ j, j < i → pat.isPrefixOf (s.drop j) = false) →
      indexOfSubstr pat s = some i := by
  intro s
  induction s with
  | nil =>
    intro i hpre hmin
    rw [List.drop_nil] at hpre
    cases i with
    | zero => simp [indexOfSubstr, hpre]
    | succ i' =>
      have h0 := hmin 0 (by omega)
      rw [List.drop_nil] at h0
      rw [h0] at hpre
      exact absurd hpre (by simp)
  | cons c t ih =>
    intro i hpre hmin
    cases i with
    | zero =>
      rw [List.drop_zero] at hpre
      simp [indexOfSubstr, hpre]
    | succ i' =>
      have h0 := hmin 0 (by omega)
      rw [List.drop_zero] at h0
      rw [List.drop_succ_cons] at hpre
      have ht : indexOfSubstr pat t = some i' := by
        refine ih i' hpre ?_
        intro j hj
        have := hmin (j + 1) (by omega)
        rwa [List.drop_succ_cons] at this
      unfold indexOfSubstr
      rw [h0]
      simp [ht]

/-- A list is a Boolean prefix of itself followed by anything. -/
theorem isPrefixOf_append_self (p : Str) : ∀ v : Str, p.isPrefixOf (p ++ v) = true := by
  induction p with
  | nil => intro v; simp
  | cons a as ih => intro v; simp [List.isPrefixOf_cons₂, ih v]

/-- Appending past a list at least as long as the pattern does not change
whether the pattern is a Boolean prefix. -/
theorem isPrefixOf_append_of_le (p : Str) :
    ∀ (m v : Str), p.length ≤ m.length → p.isPrefixOf (m ++ v) = p.isPrefixOf m := by
  induction p with
  | nil => intro m v _; simp
  | cons a as ih =>
    intro m v h
    cases m with
    | nil => simp at h
    | cons b bs =>
      simp only [List.cons_append, List.isPrefixOf_cons₂]
      rw [ih bs v (by simp only [List.length_cons] at h; omega)]

theorem convertValue_eq_self (value : Str) : convertValue value = value := by
  unfold convertValue
  cases h : jsParseInt value with
  | none => rfl
  | some num =>
    by_cases he : intToString num = value
    · simp [he]
    · simp [he]

/-- C9: value canonicalization is idempotent: `convertValue` applied twice
agrees with `convertValue` applied once (both branches of `convertValue`
return a string equal to its input). -/
theorem convertValue_idempotent (v : Str) :
    convertValue (convertValue v) = convertValue v := by
  rw [convertValue_eq_self, convertValue_eq_self]

/-- Parsing a name of the shape `expectedPfx ++ r` splits `r` at the first
occurrence of the separator. -/
theorem parseStateLabel_append (pfx sep r : Str) :
    parseStateLabel (expectedPfx pfx sep ++ r) pfx sep =
      match indexOfSubstr sep r with
      | none => none
      | some i => some (r.take i, r.drop (i + sep.length)) := by
  unfold parseStateLabel
  rw [isPrefixOf_append_self]
  simp only [if_true, List.drop_left]

/-- Decoding inverts encoding whenever the first occurrence of the separator
in `key ++ sep` sits exactly at the key/separator boundary. -/
theorem parse_create_eq (key value pfx sep : Str)
    (hk : indexOfSubstr sep (key ++ sep) = some key.length) :
    parseStateLabel (createStateLabelName key value pfx sep) pfx sep = some (key, value) := by
  have hcreate : createStateLabelName key value pfx sep =
      expectedPfx pfx sep ++ (key ++ (sep ++ value)) := by
    simp [createStateLabelName, expectedPfx, List.append_assoc]
  have hidx : indexOfSubstr sep (key ++ (sep ++ value)) = some key.length := by
    apply indexOfSubstr_eq_some
    · rw [List.drop_left]
      exact isPrefixOf_append_self sep value
    · intro j hj
      have hjle : j ≤ (key ++ sep).length := by
        simp only [List.length_append]; omega
      rw [← List.append_assoc, List.drop_append_of_le_length hjle,
        isPrefixOf_append_of_le sep _ value
          (by simp only [List.length_drop, List.length_append]; omega)]
      exact not_isPrefixOf_of_lt_indexOfSubstr sep (key ++ sep) key.length hk j hj
  rw [hcreate, parseStateLabel_append, hidx]
  simp only [List.take_left, List.drop_append, List.drop_left]

/-- C1 (amended): for every key, value, prefix and non-empty separator such
that the first occurrence of the separator in `key ++ separator` is exactly
at index `key.length` (in particular the key contains no occurrence of the
separator), parsing the label name produced by formatting returns exactly
the pair `(key, value)` — including when the value itself contains the
separator. -/
theorem roundTrip_parse_create (key value pfx sep : Str)
    (_hsep : sep ≠ [])
    (hk : indexOfSubstr sep (key ++ sep) = some key.length) :
    parseStateLabel (createStateLabelName key value pfx sep) pfx sep = some (key, value) :=
  parse_create_eq key value pfx sep hk

/-- Witness for C1 at key `step`, value `ok::x` (the value contains the
separator), prefix `state`, separator `::`. -/
theorem roundTrip_parse_create_witness :
    parseStateLabel
      (createStateLabelName "step".toList "ok::x".toList "state".toList "::".toList)
      "state".toList "::".toList = some ("step".toList, "ok::x".toList) :=
  roundTrip_parse_create "step".toList "ok::x".toList "state".toList "::".toList
    (by decide) (by decide)

/-- C1 counterexample: with non-empty separator `::` and key `a:` — which
contains no occurrence of `::` — formatting the empty value with empty
prefix yields `a:::`, whose first `::` occurrence is at index 1 (straddling
the key/separator boundary), so parsing returns `("a", ":")`, not
`("a:", "")` as the claim demands. -/
theorem roundTrip_parse_create_counterexample :
    "::".toList ≠ [] ∧
    indexOfSubstr "::".toList "a:".toList = none ∧
    parseStateLabel (createStateLabelName "a:".toList [] [] "::".toList) [] "::".toList ≠
      some ("a:".toList, []) :=
  ⟨by decide, by decide, by decide⟩

/-- C3 (amended): `parseStateLabel name pfx sep` returns `none` exactly when
`name` does not start with the expected prefix (`pfx ++ sep` when `pfx` is
non-empty, else the empty string) or the remainder after that prefix
contains no occurrence of the separator — there is no empty-key failure;
otherwise it returns the key portion before the first post-prefix separator
occurrence and the entire rest (including any further separator
occurrences) as the value. -/
theorem parseStateLabel_spec (name pfx sep : Str) :
    (parseStateLabel name pfx sep = none ↔
      (expectedPfx pfx sep).isPrefixOf name = false ∨
        indexOfSubstr sep (name.drop (expectedPfx pfx sep).length) = none) ∧
    (∀ i, (expectedPfx pfx sep).isPrefixOf name = true →
      indexOfSubstr sep (name.drop (expectedPfx pfx sep).length) = some i →
      parseStateLabel name pfx sep =
        some ((name.drop (expectedPfx pfx sep).length).take i,
          (name.drop (expectedPfx pfx sep).length).drop (i + sep.length))) := by
  constructor
  · unfold parseStateLabel
    cases hpre : (expectedPfx pfx sep).isPrefixOf name with
    | false => simp [hpre]
    | true =>
      cases hidx : indexOfSubstr sep (name.drop (expectedPfx pfx sep).length) with
      | none => simp [hpre, hidx]
      | some i => simp [hpre, hidx]
  · intro i hpre hidx
    unfold parseStateLabel
    simp [hpre, hidx]

/-- Witness for C3 (positive branch) at `state::step::1::2` with prefix
`state` and separator `::`: the key is the portion before the first
post-prefix separator and the value keeps later separator occurrences. -/
theorem parseStateLabel_spec_witness :
    parseStateLabel "state::step::1::2".toList "state".toList "::".toList =
      some ("step".toList, "1::2".toList) :=
  ((parseStateLabel_spec "state::step::1::2".toList "state".toList "::".toList).2 4
    (by decide) (by decide)).trans (by decide)

/-- C3 counterexample: `state::::v` starts with the expected prefix
`state::` and its remainder `::v` has a separator occurrence at index 0, so
the key portion before it is empty; the claim demands `none`, but the code
returns `some ("", "v")` — there is no empty-key check in
`parseStateLabel`. -/
theorem parseStateLabel_empty_key_counterexample :
    parseStateLabel "state::::v".toList "state".toList "::".toList =
      some (([] : Str), "v".toList) := by decide

/-- The freshly formatted label name decodes to its key under the boundary
condition on key and separator. -/
theorem decodesToKey_create (pfx sep key v : Str)
    (hk : indexOfSubstr sep (key ++ sep) = some key.length) :
    decodesToKey pfx sep key (createStateLabelName key (convertValue v) pfx sep) = true := by
  unfold decodesToKey
  rw [parse_create_eq key (convertValue v) pfx sep hk]
  simp

/-- One `set` replacement leaves exactly one label decoding to its key, for
any initial name list — every label decoding to the key is stripped and the
new name is appended. -/
theorem countForKey_setReplacementNames (pfx sep key v : Str) (names : List Str)
    (hk : indexOfSubstr sep (key ++ sep) = some key.length) :
    countForKey pfx sep key (setReplacementNames pfx sep key v names) = 1 := by
  unfold countForKey setReplacementNames
  rw [List.filter_append, List.filter_filter]
  simp [decodesToKey_create pfx sep key v hk]

/-- C2 (amended): under a fixed prefix and separator such that the first
occurrence of the separator in `key ++ separator` is at index `key.length`
(the condition under which the formatted name decodes back to the key), the
replacement list built by `setOperation` is the name-level replacement, and
after any non-empty sequence of `set` calls for that key — starting from any
initial label list, including one pathologically containing several labels
decoding to the key, all of which are stripped — the resulting list contains
exactly one label decoding to the key. -/
theorem setOperation_I1_preservation (pfx sep key : Str)
    (_hsep : sep ≠ [])
    (hk : indexOfSubstr sep (key ++ sep) = some key.length) :
    (∀ (currentLabels : List Label) (v : Str),
      buildSetLabels pfx sep key v currentLabels =
        setReplacementNames pfx sep key v (currentLabels.map Label.name)) ∧
    (∀ (names : List Str) (values : List Str), values ≠ [] →
      countForKey pfx sep key (applySets pfx sep key names values) = 1) := by
  constructor
  · intro currentLabels v
    unfold buildSetLabels setReplacementNames
    rw [List.filter_map]
    rfl
  · intro names values
    induction values generalizing names with
    | nil => intro h; exact absurd rfl h
    | cons v vs ih =>
      intro _
      cases vs with
      | nil => exact countForKey_setReplacementNames pfx sep key v names hk
      | cons v' vs' =>
        exact ih (setReplacementNames pfx sep key v names) (by simp)

/-- Witness for C2 with prefix `state`, separator `::`, key `step`: two
`set` calls starting from the list `["bug"]` leave exactly one label
decoding to `step`. -/
theorem setOperation_I1_preservation_witness :
    countForKey "state".toList "::".toList "step".toList
      (applySets "state".toList "::".toList "step".toList ["bug".toList]
        ["1".toList, "2".toList]) = 1 :=
  (setOperation_I1_preservation "state".toList "::".toList "step".toList
    (by decide) (by decide)).2 ["bug".toList] ["1".toList, "2".toList] (by decide)

/-- C2 counterexample: with separator `::`, empty prefix and key `a:`, a
single `set` call with value `b` on the empty label list produces
`["a:::b"]`, which decodes to key `a`, so zero labels decode to `a:` — the
claim demands exactly one. -/
theorem setOperation_I1_counterexample :
    countForKey [] "::".toList "a:".toList
      (applySets [] "::".toList "a:".toList [] ["b".toList]) ≠ 1 := by decide

/-- Every call issued by the pagination loop is a page-listing call for the
checked label. -/
theorem isLabelUsedGo_calls_listForRepo (n : Nat) (l : Str) :
    ∀ (script : List PageResult) (page : Nat) (c : ApiCall),
      c ∈ (isLabelUsedGo n l page script).calls → ∃ p, c = ApiCall.listForRepo l p := by
  intro script
  induction script with
  | nil =>
    intro page c hc
    simp only [isLabelUsedGo, List.mem_singleton] at hc
    exact ⟨page, hc⟩
  | cons head rest ih =>
    intro page c hc
    cases head with
    | err msg =>
      simp only [isLabelUsedGo, List.mem_singleton] at hc
      exact ⟨page, hc⟩
    | ok issues =>
      by_cases h1 : 0 < (issues.filter (fun m => m != n)).length
      · simp only [isLabelUsedGo, h1, if_true, List.mem_singleton] at hc
        exact ⟨page, hc⟩
      · by_cases h2 : issues.length < perPage
        · simp only [isLabelUsedGo, h1, h2, if_false, if_true, List.mem_singleton] at hc
          exact ⟨page, hc⟩
        · simp only [isLabelUsedGo, h1, h2, if_false, List.mem_cons] at hc
          cases hc with
          | inl h => exact ⟨page, h⟩
          | inr h => exact ih (page + 1) c h

/-- Reaching a transport error after any run of full own-issue pages yields
`true` with a single warning. -/
theorem isLabelUsedGo_err (n : Nat) (l msg : Str) (rest : List PageResult) :
    ∀ (pre : List PageResult) (page : Nat),
      (∀ p ∈ pre, fullOwnPage n p) →
      isLabelUsedGo n l page (pre ++ PageResult.err msg :: rest) =
        ⟨true, pagesCalls l page (pre.length + 1),
          [OpWarning.usageCheckFailed l msg]⟩ := by
  intro pre
  induction pre with
  | nil =>
    intro page _
    simp [isLabelUsedGo, pagesCalls]
  | cons q pre' ih =>
    intro page hfull
    obtain ⟨issues, rfl, hother, hlen⟩ := hfull q (by simp)
    have hrec := ih (page + 1) (fun p hp => hfull p (by simp [hp]))
    rw [List.cons_append]
    unfold isLabelUsedGo
    simp [hother, Nat.not_lt.mpr hlen, hrec, pagesCalls]

/-- Reaching a page with another issue after any run of full own-issue pages
yields `true`, with no page fetched past that one. -/
theorem isLabelUsedGo_found (n : Nat) (l : Str) (issues : List Nat) (rest : List PageResult)
    (hfound : issues.filter (fun m => m != n) ≠ []) :
    ∀ (pre : List PageResult) (page : Nat),
      (∀ p ∈ pre, fullOwnPage n p) →
      isLabelUsedGo n l page (pre ++ PageResult.ok issues :: rest) =
        ⟨true, pagesCalls l page (pre.length + 1), []⟩ := by
  intro pre
  induction pre with
  | nil =>
    intro page _
    have h1 : 0 < (issues.filter (fun m => m != n)).length := List.length_pos.mpr hfound
    simp [isLabelUsedGo, h1, pagesCalls]
  | cons q pre' ih =>
    intro page hfull
    obtain ⟨qIssues, rfl, hother, hlen⟩ := hfull q (by simp)
    have hrec := ih (page + 1) (fun p hp => hfull p (by simp [hp]))
    rw [List.cons_append]
    unfold isLabelUsedGo
    simp [hother, Nat.not_lt.mpr hlen, hrec, pagesCalls]

/-- Reaching a short page carrying only the own issue after any run of full
own-issue pages ends pagination with `false`. -/
theorem isLabelUsedGo_short (n : Nat) (l : Str) (issues : List Nat) (rest : List PageResult)
    (hnone : issues.filter (fun m => m != n) = [])
    (hshort : issues.length < perPage) :
    ∀ (pre : List PageResult) (page : Nat),
      (∀ p ∈ pre, fullOwnPage n p) →
      isLabelUsedGo n l page (pre ++ PageResult.ok issues :: rest) =
        ⟨false, pagesCalls l page (pre.length + 1), []⟩ := by
  intro pre
  induction pre with
  | nil =>
    intro page _
    simp [isLabelUsedGo, hnone, hshort, pagesCalls]
  | cons q pre' ih =>
    intro page hfull
    obtain ⟨qIssues, rfl, hother, hlen⟩ := hfull q (by simp)
    have hrec := ih (page + 1) (fun p hp => hfull p (by simp [hp]))
    rw [List.cons_append]
    unfold isLabelUsedGo
    simp [hother, Nat.not_lt.mpr hlen, hrec, pagesCalls]

/-- C6: if any page-listing call actually made by the usage checker fails
with a transport error — i.e. the error entry is reached after a run of full
pages carrying only the context's own issue — `isLabelUsedByOthers` returns
`true` (the label is treated as used elsewhere) and reports a non-fatal
warning instead of propagating the failure. -/
theorem isLabelUsedByOthers_fail_safe (ctx : OperationContext) (labelName msg : Str)
    (pre rest : List PageResult)
    (hfull : ∀ p ∈ pre, fullOwnPage ctx.issueNumber p) :
    (isLabelUsedByOthers ctx labelName (pre ++ PageResult.err msg :: rest)).used = true ∧
    (isLabelUsedByOthers ctx labelName (pre ++ PageResult.err msg :: rest)).warnings =
      [OpWarning.usageCheckFailed labelName msg] := by
  unfold isLabelUsedByOthers
  rw [isLabelUsedGo_err ctx.issueNumber labelName msg rest pre 1 hfull]
  exact ⟨rfl, rfl⟩

/-- Witness for C6: one erroring page makes the check return `true` with one
warning. -/
theorem isLabelUsedByOthers_fail_safe_witness :
    (isLabelUsedByOthers ⟨"o".toList, "r".toList, 5, "state".toList, "::".toList, true⟩
        "state::step::1".toList [PageResult.err "boom".toList]).used = true ∧
    (isLabelUsedByOthers ⟨"o".toList, "r".toList, 5, "state".toList, "::".toList, true⟩
        "state::step::1".toList [PageResult.err "boom".toList]).warnings =
      [OpWarning.usageCheckFailed "state::step::1".toList "boom".toList] :=
  isLabelUsedByOthers_fail_safe ⟨"o".toList, "r".toList, 5, "state".toList, "::".toList, true⟩
    "state::step::1".toList "boom".toList [] [] (by simp)

/-- C7: pagination starts at page 1 with fixed page size `perPage = 100`
(see `isLabelUsedGo`), filters only the context's own issue number out of
each page, returns `true` as soon as a page contains another issue — with no
further page fetched — and returns `false` when a page carrying only the own
issue is shorter than the page size. -/
theorem isLabelUsedByOthers_pagination (ctx : OperationContext) (labelName : Str) :
    (∀ (pre : List PageResult) (issues : List Nat) (rest : List PageResult),
      (∀ p ∈ pre, fullOwnPage ctx.issueNumber p) →
      issues.filter (fun m => m != ctx.issueNumber) ≠ [] →
      isLabelUsedByOthers ctx labelName (pre ++ PageResult.ok issues :: rest) =
        ⟨true, pagesCalls labelName 1 (pre.length + 1), []⟩) ∧
    (∀ (pre : List PageResult) (issues : List Nat) (rest : List PageResult),
      (∀ p ∈ pre, fullOwnPage ctx.issueNumber p) →
      issues.filter (fun m => m != ctx.issueNumber) = [] →
      issues.length < perPage →
      isLabelUsedByOthers ctx labelName (pre ++ PageResult.ok issues :: rest) =
        ⟨false, pagesCalls labelName 1 (pre.length + 1), []⟩) := by
  constructor
  · intro pre issues rest hfull hfound
    exact isLabelUsedGo_found ctx.issueNumber labelName issues rest hfound pre 1 hfull
  · intro pre issues rest hfull hnone hshort
    exact isLabelUsedGo_short ctx.issueNumber labelName issues rest hnone hshort pre 1 hfull

/-- Witness for C7: a first page with a foreign issue yields `true` after one
call; a short first page with only the own issue yields `false` after one
call. -/
theorem isLabelUsedByOthers_pagination_witness :
    isLabelUsedByOthers ⟨"o".toList, "r".toList, 5, "state".toList, "::".toList, true⟩
        "state::k::v".toList [PageResult.ok [7]] =
      ⟨true, [ApiCall.listForRepo "state::k::v".toList 1], []⟩ ∧
    isLabelUsedByOthers ⟨"o".toList, "r".toList, 5, "state".toList, "::".toList, true⟩
        "state::k::v".toList [PageResult.ok [5]] =
      ⟨false, [ApiCall.listForRepo "state::k::v".toList 1], []⟩ :=
  ⟨(isLabelUsedByOthers_pagination
        ⟨"o".toList, "r".toList, 5, "state".toList, "::".toList, true⟩
        "state::k::v".toList).1 [] [7] [] (by simp) (by decide),
    (isLabelUsedByOthers_pagination
        ⟨"o".toList, "r".toList, 5, "state".toList, "::".toList, true⟩
        "state::k::v".toList).2 [] [5] [] (by simp) (by decide) (by decide)⟩

/-- The usage check issues no label-list replacement call. -/
theorem usage_calls_no_setLabels (ctx : OperationContext) (l : Str) (pages : List PageResult) :
    (isLabelUsedByOthers ctx l pages).calls.filter ApiCall.isSetLabels = [] := by
  rw [List.filter_eq_nil_iff]
  intro c hc
  obtain ⟨p, rfl⟩ := isLabelUsedGo_calls_listForRepo ctx.issueNumber l pages 1 c hc
  simp [ApiCall.isSetLabels]

/-- The pagination loop always begins by listing its starting page. -/
theorem isLabelUsedGo_calls_head (n : Nat) (l : Str) (page : Nat) (script : List PageResult) :
    ApiCall.listForRepo l page ∈ (isLabelUsedGo n l page script).calls := by
  cases script with
  | nil => simp [isLabelUsedGo]
  | cons head rest =>
    cases head with
    | err msg => simp [isLabelUsedGo]
    | ok issues =>
      by_cases h1 : 0 < (issues.filter (fun m => m != n)).length
      · simp [isLabelUsedGo, h1]
      · by_cases h2 : issues.length < perPage
        · simp [isLabelUsedGo, h1, h2]
        · simp [isLabelUsedGo, h1, h2]

/-- C4: every `set` call issues exactly one label-list replacement call,
whose payload is the names of the current labels minus every label decoding
to the key, in their original relative order, with the newly formatted label
name appended; when that call succeeds, the operation returns
`success: true`. -/
theorem setOperation_sends_replacement (ctx : OperationContext) (key value : Str)
    (currentLabels : List Label) (env : ExternalEnv) :
    (setOperation ctx key value currentLabels env).calls.filter ApiCall.isSetLabels =
      [ApiCall.setLabels
        ((currentLabels.filter
            (fun l => !decodesToKey ctx.pfx ctx.separator key l.name)).map (fun l => l.name) ++
          [createStateLabelName key (convertValue value) ctx.pfx ctx.separator])] ∧
    (env.setLabelsResult = Except.ok () →
      (setOperation ctx key value currentLabels env).result = Except.ok ⟨true, none, none⟩) := by
  obtain ⟨setres, pages0, delres⟩ := env
  constructor
  · unfold setOperation
    cases setres with
    | error e => simp [buildSetLabels, ApiCall.isSetLabels]
    | ok u =>
      cases hfind : currentLabels.find? (fun l => decodesToKey ctx.pfx ctx.separator key l.name) with
      | none => simp [buildSetLabels, ApiCall.isSetLabels]
      | some ex =>
        cases hdel : ctx.deleteUnusedLabels with
        | false => simp [hdel, buildSetLabels, ApiCall.isSetLabels]
        | true =>
          cases hused : (isLabelUsedByOthers ctx ex.name pages0).used with
          | true =>
            simp [hdel, hused, buildSetLabels, ApiCall.isSetLabels,
              usage_calls_no_setLabels]
          | false =>
            cases delres with
            | ok u2 =>
              simp [hdel, hused, buildSetLabels, ApiCall.isSetLabels,
                usage_calls_no_setLabels]
            | error e2 =>
              simp [hdel, hused, buildSetLabels, ApiCall.isSetLabels,
                usage_calls_no_setLabels]
  · intro hok
    replace hok : setres = Except.ok () := hok
    subst hok
    unfold setOperation
    cases hfind : currentLabels.find? (fun l => decodesToKey ctx.pfx ctx.separator key l.name) with
    | none => rfl
    | some ex =>
      cases hdel : ctx.deleteUnusedLabels with
      | false => simp [hdel]
      | true =>
        cases hused : (isLabelUsedByOthers ctx ex.name pages0).used with
        | true => simp [hdel, hused]
        | false =>
          cases delres with
          | ok u2 => simp [hdel, hused]
          | error e2 => simp [hdel, hused]

/-- Witness for C4 at Scenario B: labels
`["bug", "state::step::1", "state::status::pending", "enhancement"]`, prefix
`state`, separator `::`, `set("step", "2")` sends the replacement list
`["bug", "state::status::pending", "enhancement", "state::step::2"]` and
returns success. -/
theorem setOperation_sends_replacement_witness :
    (setOperation ⟨"o".toList, "r".toList, 1, "state".toList, "::".toList, false⟩
        "step".toList "2".toList
        [⟨"bug".toList, none, none⟩, ⟨"state::step::1".toList, none, none⟩,
          ⟨"state::status::pending".toList, none, none⟩, ⟨"enhancement".toList, none, none⟩]
        ⟨Except.ok (), [], Except.ok ()⟩).calls.filter ApiCall.isSetLabels =
      [ApiCall.setLabels ["bug".toList, "state::status::pending".toList,
        "enhancement".toList, "state::step::2".toList]] ∧
    (setOperation ⟨"o".toList, "r".toList, 1, "state".toList, "::".toList, false⟩
        "step".toList "2".toList
        [⟨"bug".toList, none, none⟩, ⟨"state::step::1".toList, none, none⟩,
          ⟨"state::status::pending".toList, none, none⟩, ⟨"enhancement".toList, none, none⟩]
        ⟨Except.ok (), [], Except.ok ()⟩).result = Except.ok ⟨true, none, none⟩ :=
  ⟨((setOperation_sends_replacement _ "step".toList "2".toList _ _).1).trans (by decide),
    (setOperation_sends_replacement _ "step".toList "2".toList _ _).2 rfl⟩

/-- C5: `remove` on a key to which no current label decodes returns
`success: false` and issues no external API call at all — no label-list
replacement, no usage check, no catalog deletion — and emits no warning. -/
theorem removeOperation_absent_noop (ctx : OperationContext) (key : Str)
    (currentLabels : List Label) (env : ExternalEnv)
    (habsent : currentLabels.find?
      (fun l => decodesToKey ctx.pfx ctx.separator key l.name) = none) :
    removeOperation ctx key currentLabels env =
      ⟨Except.ok ⟨false, none, none⟩, [], []⟩ := by
  unfold removeOperation
  rw [habsent]

/-- Witness for C5: removing the key `missing` from labels `["bug"]` makes
no call and reports `success: false`. -/
theorem removeOperation_absent_noop_witness :
    removeOperation ⟨"o".toList, "r".toList, 1, "state".toList, "::".toList, true⟩
        "missing".toList [⟨"bug".toList, none, none⟩]
        ⟨Except.ok (), [], Except.ok ()⟩ =
      ⟨Except.ok ⟨false, none, none⟩, [], []⟩ :=
  removeOperation_absent_noop _ _ _ _ (by decide)

/-- C8: once the label-list replacement call succeeds, `setOperation`
returns `success: true` no matter how the best-effort catalog-deletion step
ends; a failure of an attempted deletion is downgraded to a warning and
never changes the operation's result. -/
theorem setOperation_delete_failure_nonfatal (ctx : OperationContext) (key value : Str)
    (currentLabels : List Label) (env : ExternalEnv)
    (hok : env.setLabelsResult = Except.ok ()) :
    (setOperation ctx key value currentLabels env).result = Except.ok ⟨true, none, none⟩ ∧
    (∀ (ex : Label) (e : Str),
      currentLabels.find? (fun l => decodesToKey ctx.pfx ctx.separator key l.name) = some ex →
      ctx.deleteUnusedLabels = true →
      (isLabelUsedByOthers ctx ex.name env.pages).used = false →
      env.deleteResult = Except.error e →
      OpWarning.deleteFailed ex.name e ∈ (setOperation ctx key value currentLabels env).warnings) := by
  obtain ⟨setres, pages0, delres⟩ := env
  replace hok : setres = Except.ok () := hok
  subst hok
  constructor
  · unfold setOperation
    cases hfind : currentLabels.find? (fun l => decodesToKey ctx.pfx ctx.separator key l.name) with
    | none => rfl
    | some ex =>
      cases hdel : ctx.deleteUnusedLabels with
      | false => simp [hdel]
      | true =>
        cases hused : (isLabelUsedByOthers ctx ex.name pages0).used with
        | true => simp [hdel, hused]
        | false =>
          cases delres with
          | ok u2 => simp [hdel, hused]
          | error e2 => simp [hdel, hused]
  · intro ex e hfind hdel hunused hdelres
    replace hdelres : delres = Except.error e := hdelres
    subst hdelres
    unfold setOperation
    rw [hfind]
    simp [hdel, hunused]

/-- Witness for C8: a `set` overwriting `state::step::1` with
`deleteUnusedLabels` enabled, an unused old label and a failing catalog
delete still returns success and records the delete-failure warning. -/
theorem setOperation_delete_failure_nonfatal_witness :
    (setOperation ⟨"o".toList, "r".toList, 1, "state".toList, "::".toList, true⟩
        "step".toList "2".toList [⟨"state::step::1".toList, none, none⟩]
        ⟨Except.ok (), [], Except.error "denied".toList⟩).result =
      Except.ok ⟨true, none, none⟩ ∧
    OpWarning.deleteFailed "state::step::1".toList "denied".toList ∈
      (setOperation ⟨"o".toList, "r".toList, 1, "state".toList, "::".toList, true⟩
        "step".toList "2".toList [⟨"state::step::1".toList, none, none⟩]
        ⟨Except.ok (), [], Except.error "denied".toList⟩).warnings :=
  ⟨(setOperation_delete_failure_nonfatal _ "step".toList "2".toList _ _ rfl).1,
    (setOperation_delete_failure_nonfatal _ "step".toList "2".toList _ _ rfl).2
      ⟨"state::step::1".toList, none, none⟩ "denied".toList
      (by decide) rfl (by decide) rfl⟩

/-- C10: when the current labels already contain a label for the key whose
name equals the freshly formatted name (the stored value is unchanged) and
`deleteUnusedLabels` is enabled, a `set` whose replacement call succeeds
still runs the usage check on that name and, when the check reports it
unused elsewhere, issues a catalog delete for the very label name it has
just written in the replacement list. -/
theorem setOperation_deletes_rewritten_name (ctx : OperationContext) (key value : Str)
    (currentLabels : List Label) (env : ExternalEnv) (ex : Label)
    (hfind : currentLabels.find?
      (fun l => decodesToKey ctx.pfx ctx.separator key l.name) = some ex)
    (hname : ex.name = createStateLabelName key (convertValue value) ctx.pfx ctx.separator)
    (hdel : ctx.deleteUnusedLabels = true)
    (hok : env.setLabelsResult = Except.ok ())
    (hunused : (isLabelUsedByOthers ctx ex.name env.pages).used = false) :
    ApiCall.listForRepo (createStateLabelName key (convertValue value) ctx.pfx ctx.separator) 1 ∈
      (setOperation ctx key value currentLabels env).calls ∧
    ApiCall.deleteLabel (createStateLabelName key (convertValue value) ctx.pfx ctx.separator) ∈
      (setOperation ctx key value currentLabels env).calls ∧
    createStateLabelName key (convertValue value) ctx.pfx ctx.separator ∈
      buildSetLabels ctx.pfx ctx.separator key value currentLabels := by
  obtain ⟨setres, pages0, delres⟩ := env
  replace hok : setres = Except.ok () := hok
  subst hok
  replace hunused : (isLabelUsedByOthers ctx ex.name pages0).used = false := hunused
  rw [← hname]
  have hmem : ApiCall.listForRepo ex.name 1 ∈ (isLabelUsedByOthers ctx ex.name pages0).calls :=
    isLabelUsedGo_calls_head ctx.issueNumber ex.name 1 pages0
  refine ⟨?_, ?_, ?_⟩
  · unfold setOperation
    rw [hfind]
    cases delres with
    | ok u2 => simp [hdel, hunused, hmem]
    | error e2 => simp [hdel, hunused, hmem]
  · unfold setOperation
    rw [hfind]
    cases delres with
    | ok u2 => simp [hdel, hunused]
    | error e2 => simp [hdel, hunused]
  · unfold buildSetLabels
    rw [hname]
    simp

/-- Witness for C10: `set("step", "2")` on labels `["state::step::2"]` (the
stored value already equals the new one) with `deleteUnusedLabels` enabled
and an empty usage listing checks and catalog-deletes the very name
`state::step::2` it writes. -/
theorem setOperation_deletes_rewritten_name_witness :
    ApiCall.listForRepo "state::step::2".toList 1 ∈
      (setOperation ⟨"o".toList, "r".toList, 1, "state".toList, "::".toList, true⟩
        "step".toList "2".toList [⟨"state::step::2".toList, none, none⟩]
        ⟨Except.ok (), [], Except.ok ()⟩).calls ∧
    ApiCall.deleteLabel "state::step::2".toList ∈
      (setOperation ⟨"o".toList, "r".toList, 1, "state".toList, "::".toList, true⟩
        "step".toList "2".toList [⟨"state::step::2".toList, none, none⟩]
        ⟨Except.ok (), [], Except.ok ()⟩).calls ∧
    "state::step::2".toList ∈
      buildSetLabels "state".toList "::".toList "step".toList "2".toList
        [⟨"state::step::2".toList, none, none⟩] :=
  setOperation_deletes_rewritten_name _ "step".toList "2".toList _ _
    ⟨"state::step::2".toList, none, none⟩ (by decide) (by decide) rfl rfl (by decide)

end StateLabels
